import Mathlib

set_option maxHeartbeats 1000000
set_option maxRecDepth 4000

/-!
Shallow embedding of the modern-pic-versatilepb repository.

Part 1 embeds src/startup/startup.S: the position-independent entry thunk
_start, its GOT relocation loop (.L_got_loop), its BSS zero-fill loop
(.L_bss_loop) and the optional FORCE_SVC mode switch.

Machine integers are Nat with explicit reduction mod 2^32 where the 32-bit
ARM registers can wrap.  Memory is word-granular: a function from the byte
address of an aligned word to its 32-bit value; every load and store in the
embedded code is an aligned word access.  Conditional branches after
flag-setting instructions are translated through the standard ARM identity
that, after SUBS a b, condition LE holds iff signed a is at most signed b
and condition GT holds iff signed a exceeds signed b (the V flag folds the
overflow back into a true signed comparison).
-/

namespace Startup

/-- 32-bit wraparound addition. -/
def addw (a b : Nat) : Nat := (a + b) % 2 ^ 32

/-- 32-bit wraparound subtraction (two-complement). -/
def subw (a b : Nat) : Nat := (a + (2 ^ 32 - b % 2 ^ 32)) % 2 ^ 32

/-- Signed reading of a 32-bit register value. -/
def toSigned (n : Nat) : Int := if n < 2 ^ 31 then (n : Int) else (n : Int) - 2 ^ 32

/-- Word-granular memory: address of an aligned word to its value. -/
def Mem : Type := Nat → Nat

/-- Store a word: only the addressed word changes. -/
def writeWord (mem : Mem) (a v : Nat) : Mem := fun x => if x = a then v % 2 ^ 32 else mem x

/-- NZCV nibble produced by SUBS a b (32-bit): N is the sign of the result,
Z its nullity, C the absence of a borrow, V the signed overflow. -/
def nzcv (a b : Nat) : Nat :=
  (if 2 ^ 31 ≤ subw a b then 8 else 0) + (if subw a b = 0 then 4 else 0) +
  (if b % 2 ^ 32 ≤ a % 2 ^ 32 then 2 else 0) +
  (if toSigned a - toSigned b = toSigned (subw a b) then 0 else 1)

/-- CPSR after SUBS a b: bits 0 to 27 kept, bits 28 to 31 set to NZCV. -/
def flagsSub (c a b : Nat) : Nat := c % 2 ^ 28 + nzcv a b * 2 ^ 28

/-- CPSR after MOVS rd, #0: Z set, N cleared, C and V and bits 0 to 27 kept. -/
def flagsMovZero (c : Nat) : Nat := c % 2 ^ 30 + 2 ^ 30

/-- State threaded through one table-walk pass: the status word, the data
memory, and the chronological log of (address, value) stores the pass made. -/
structure PassState where
  cpsr : Nat
  mem : Mem
  writes : List (Nat × Nat)

/-- Body of .L_got_loop.  On entry r6 holds the remaining byte count.
The iteration is: SUBS r6, #4; LDR r4, [r5, r6]; ADD r4, r7;
STR r4, [r5, r6]; BGT .L_got_loop.  BGT after SUBS r6 #4 holds iff
signed r6 (the pre-decrement value) exceeds 4. -/
def gotLoop (r7 r5 r6 : Nat) (st : PassState) : PassState :=
  let r6n := subw r6 4
  let a := addw r5 r6n
  let v := addw (st.mem a) r7
  let st1 : PassState :=
    ⟨flagsSub st.cpsr r6 4, writeWord st.mem a v, st.writes ++ [(a, v)]⟩
  if 4 < toSigned r6 then gotLoop r7 r5 r6n st1 else st1
termination_by r6
decreasing_by
  simp only [toSigned, subw] at *
  split at * <;> omega

/-- Body of .L_bss_loop: SUBS r6, #4; STR r4, [r5, r6]; BGT, with r4 = 0. -/
def bssLoop (r5 r6 : Nat) (st : PassState) : PassState :=
  let r6n := subw r6 4
  let a := addw r5 r6n
  let st1 : PassState :=
    ⟨flagsSub st.cpsr r6 4, writeWord st.mem a 0, st.writes ++ [(a, 0)]⟩
  if 4 < toSigned r6 then bssLoop r5 r6n st1 else st1
termination_by r6
decreasing_by
  simp only [toSigned, subw] at *
  split at * <;> omega

/-- The GOT relocation pass of _start.  r5 and r6 hold the already
relocated runtime bounds (link-time symbol plus r7); the pass executes
SUBS r6, r5; BLE .L_got_loop_done and otherwise runs .L_got_loop with the
byte length in r6.  BLE after SUBS r6 r5 holds iff signed r6 is at most
signed r5. -/
def gotPass (r7 r5 r6 : Nat) (st : PassState) : PassState :=
  let st1 : PassState := ⟨flagsSub st.cpsr r6 r5, st.mem, st.writes⟩
  if toSigned r6 ≤ toSigned r5 then st1 else gotLoop r7 r5 (subw r6 r5) st1

/-- The BSS zero-fill pass of _start: SUBS r6, r5; BLE .L_bss_loop_done,
otherwise .L_bss_loop over the byte length.  (The preceding MOVS r4, #0 is
applied by the caller as flagsMovZero.) -/
def bssPass (r5 r6 : Nat) (st : PassState) : PassState :=
  let st1 : PassState := ⟨flagsSub st.cpsr r6 r5, st.mem, st.writes⟩
  if toSigned r6 ≤ toSigned r5 then st1 else bssLoop r5 (subw r6 r5) st1

/-- Externally visible events of one _start invocation: data-memory word
stores and the single call of the generic entry point main. -/
inductive Event where
  | write (addr val : Nat)
  | callMain
deriving DecidableEq

/-- Build-time and link-time parameters of the thunk.  loadBase is the
runtime address of _start computed by SUB r7, pc, #12 (the image is linked
at base 0, so it equals the Load Base Offset).  The got/bss/stack symbols
are the link-time values the LDR rX, =sym literals provide.  retAddr is
the runtime address of the instruction following BL main, which BL leaves
in the link register of the then-current mode. -/
structure Config where
  forceSvc : Bool
  loadBase : Nat
  gotStart : Nat
  gotEnd : Nat
  bssStart : Nat
  bssEnd : Nat
  stackTop : Nat
  retAddr : Nat

/-- ARM banks sp and lr per mode; modes usr (0x10) and sys (0x1f) share
one bank.  r4 to r7 are shared by all modes, as the source comment notes. -/
def bankIdx (m : Nat) : Nat := if m = 0x1f then 0x10 else m

/-- Point update of a banked register file. -/
def updBank (f : Nat → Nat) (i v : Nat) : Nat → Nat := fun j => if j = i then v else f j

/-- The FORCE_SVC status-word rewrite BIC r4, #0x1f; ORR r4, #0xd3.
BIC clears the five mode bits; ORR 0xd3 = 0b11010011 then sets mode
0b10011 (svc) and forces bits 6 and 7 (the FIQ and IRQ disable flags) to
one, while bit 5 (Thumb) and all bits from 8 up are kept.  Written
arithmetically: the byte above is kept, the low byte becomes 0xd3 plus
bit 5 of the input. -/
def svcSwitch (c : Nat) : Nat := c / 2 ^ 8 * 2 ^ 8 + 0xd3 + c / 2 ^ 5 % 2 * 2 ^ 5

/-- The FORCE_SVC unwind rewrite AND r5, #0xff; BIC r4, #0xff;
ORR r4, r5 applied to the current status word and the saved one: the low
byte is taken from the saved word, everything above from the current. -/
def restoreCpsr (now saved : Nat) : Nat := now / 2 ^ 8 * 2 ^ 8 + saved % 2 ^ 8

/-- Machine state seen by _start.  sp and lr live in per-mode banks;
lstack, lmode, lstackSvc model the three literal-pool words .Lstack,
.Lmode and .Lstack_svc that the thunk stores into PC-relatively (they sit
in the code image, disjoint from the data memory the passes touch, and
are modelled as dedicated fields rather than logged data stores).
trace is the chronological event log. -/
structure MachState where
  r4 : Nat
  r5 : Nat
  r6 : Nat
  r7 : Nat
  spBank : Nat → Nat
  lrBank : Nat → Nat
  cpsr : Nat
  mem : Mem
  lstack : Nat
  lmode : Nat
  lstackSvc : Nat
  trace : List Event

/-- One full run of _start, from entry to the final BX LR, for either
build (cfg.forceSvc selects the FORCE_SVC conditional blocks).  The
generic entry main is modelled as returning with registers, status word
and memory unchanged; its return value is ignored by the thunk.  The
D-cache flush loop only touches CP15 state and flags that the next SUBS
overwrites before anything reads them, so it leaves the modelled state
unchanged. -/
def runStart (cfg : Config) (s : MachState) : MachState :=
  let m0 := bankIdx (s.cpsr % 2 ^ 5)
  let sp0 := s.spBank m0
  -- STMFD sp!, {r4-r7}: four word stores below the entry stack pointer.
  let sp1 := subw sp0 16
  let mem1 := writeWord (writeWord (writeWord (writeWord s.mem
                sp1 s.r4) (addw sp1 4) s.r5) (addw sp1 8) s.r6) (addw sp1 12) s.r7
  let tr1 := s.trace ++ [Event.write sp1 s.r4, Event.write (addw sp1 4) s.r5,
                Event.write (addw sp1 8) s.r6, Event.write (addw sp1 12) s.r7]
  let spB1 := updBank s.spBank m0 sp1
  -- SUB r7, pc, #12: the runtime address of _start.
  let r7 := cfg.loadBase
  -- STR sp, .Lstack
  let lstack1 := sp1
  -- .L_dcache_flush: no modelled effect.
  -- GOT relocation: LDR r5, =got_start; ADD r5, r7; LDR r6, =got_end;
  -- ADD r6, r7; then the guarded .L_got_loop pass.
  let pg := gotPass r7 (addw cfg.gotStart r7) (addw cfg.gotEnd r7) ⟨s.cpsr, mem1, []⟩
  let tr2 := tr1 ++ pg.writes.map fun w => Event.write w.1 w.2
  -- FORCE_SVC: MRS r4, cpsr; STR r4, .Lmode; BIC; ORR; MSR cpsr, r4;
  -- STR sp, .Lstack_svc (sp now reads from the svc bank).
  let lmode1 := if cfg.forceSvc then pg.cpsr else s.lmode
  let cpsr1 := if cfg.forceSvc then svcSwitch pg.cpsr else pg.cpsr
  let m1 := bankIdx (cpsr1 % 2 ^ 5)
  let lstackSvc1 := if cfg.forceSvc then spB1 m1 else s.lstackSvc
  -- LDR r4, =stack; ADD sp, r7, r4: install the private stack.
  let spB2 := updBank spB1 m1 (addw r7 cfg.stackTop)
  -- MOVS r4, #0 then the guarded .L_bss_loop pass.
  let pb := bssPass (addw cfg.bssStart r7) (addw cfg.bssEnd r7)
              ⟨flagsMovZero cpsr1, pg.mem, []⟩
  let tr3 := tr2 ++ pb.writes.map fun w => Event.write w.1 w.2
  -- BL main: the link register of the current mode gets the return
  -- address; main runs and returns (modelled state-preserving).
  let lrB1 := updBank s.lrBank m1 cfg.retAddr
  let tr4 := tr3 ++ [Event.callMain]
  -- FORCE_SVC unwind: LDR sp, .Lstack_svc (still in svc); MRS; AND; BIC;
  -- ORR; MSR cpsr (back to the saved mode).
  let spB3 := if cfg.forceSvc then updBank spB2 m1 lstackSvc1 else spB2
  let cpsr2 := if cfg.forceSvc then restoreCpsr pb.cpsr lmode1 else pb.cpsr
  let m2 := bankIdx (cpsr2 % 2 ^ 5)
  -- LDR sp, .Lstack
  let spB4 := updBank spB3 m2 lstack1
  -- LDMFD sp!, {r4-r7}; BX lr
  let spB5 := updBank spB4 m2 (addw lstack1 16)
  ⟨pb.mem lstack1, pb.mem (addw lstack1 4),
   pb.mem (addw lstack1 8), pb.mem (addw lstack1 12),
   spB5, lrB1, cpsr2, pb.mem, lstack1, lmode1, lstackSvc1, tr4⟩

end Startup

namespace Uart

/-- Modelled from the spec: bsp.h is not under src/.  The configured
channel count; uart.c states that all 3 UARTs are supported and that a
number is invalid when equal or greater than 3. -/
def BSP_NR_UARTS : Nat := 3

/-- Control Register bit masks from uart.c. -/
def CTL_UARTEN : Nat := 0x00000001
def CTL_SIREN : Nat := 0x00000002
def CTL_SIRLP : Nat := 0x00000004
def CTL_LBE : Nat := 0x00000080
def CTL_TXE : Nat := 0x00000100
def CTL_RXE : Nat := 0x00000200
def CTL_DTR : Nat := 0x00000400
def CTL_RTS : Nat := 0x00000800
def CTL_OUT1 : Nat := 0x00001000
def CTL_OUT2 : Nat := 0x00002000
def CTL_RTSEn : Nat := 0x00004000
def CTL_CTSEn : Nat := 0x00008000

/-- Interrupt Mask Set/Clear Register bit masks from uart.c. -/
def INT_RIMIM : Nat := 0x00000001
def INT_CTSMIM : Nat := 0x00000002
def INT_DCDMIM : Nat := 0x00000004
def INT_DSRMIM : Nat := 0x00000008
def INT_RXIM : Nat := 0x00000010
def INT_TXIM : Nat := 0x00000020
def INT_RTIM : Nat := 0x00000040
def INT_FEIM : Nat := 0x00000080
def INT_PEIM : Nat := 0x00000100
def INT_BEIM : Nat := 0x00000200
def INT_OEIM : Nat := 0x00000400

/-- Flag Register bit masks from uart.c. -/
def FR_RXFE : Nat := 0x00000010
def FR_TXFF : Nat := 0x00000020

/-- The writable / readable registers of one PL011 controller that the
driver touches, per the ARM926EJS_UART_REGS layout in uart.c. -/
inductive UReg where
  | dr
  | rsr
  | fr
  | ilpr
  | ibrd
  | fbrd
  | lch
  | cr
  | ifls
  | imsc
  | icr
  | dmacr
deriving DecidableEq

/-- Device state: the register file of every channel (the pReg array),
plus the chronological log of register writes (channel, register, value)
the driver has performed.  The read-only Flag Register is hardware
controlled; it is modelled as constant for the duration of one call. -/
structure UartState where
  regs : Nat → UReg → Nat
  log : List (Nat × UReg × Nat)

/-- A full-word register store: updates the register and logs the write. -/
def writeReg (s : UartState) (nr : Nat) (r : UReg) (v : Nat) : UartState :=
  ⟨fun n q => if n = nr ∧ q = r then v else s.regs n q, s.log ++ [(nr, r, v)]⟩

/-- Modelled from the spec: regutil.h is not under src/.  Per the
read-modify-write comments in uart.c, HWREG_SET_BITS ors the mask of
1-bits into the register. -/
def HWREG_SET_BITS (s : UartState) (nr : Nat) (r : UReg) (mask : Nat) : UartState :=
  writeReg s nr r (s.regs nr r ||| mask)

/-- Modelled from the spec: regutil.h is not under src/.  Per the
comments in uart.c, HWREG_CLEAR_BITS ands the zero complement of the mask
into the register, clearing exactly the mask bits; on Nat this is
subtracting the common bits. -/
def HWREG_CLEAR_BITS (s : UartState) (nr : Nat) (r : UReg) (mask : Nat) : UartState :=
  writeReg s nr r (s.regs nr r - (s.regs nr r &&& mask))

/-- Modelled from the spec: regutil.h is not under src/.  HWREG_READ_BITS
reads the register bits selected by the mask (no write, no log). -/
def HWREG_READ_BITS (s : UartState) (nr : Nat) (r : UReg) (mask : Nat) : Nat :=
  s.regs nr r &&& mask

/-- uart_init from uart.c: nothing for an invalid channel; otherwise
disable the UART, set TXE, clear the other control bits, mask out all
interrupts, then enable the UART. -/
def uart_init (nr : Nat) (s : UartState) : UartState :=
  if BSP_NR_UARTS ≤ nr then s else
  let s1 := HWREG_CLEAR_BITS s nr .cr CTL_UARTEN
  let s2 := HWREG_SET_BITS s1 nr .cr CTL_TXE
  let s3 := HWREG_CLEAR_BITS s2 nr .cr
    (CTL_SIREN ||| CTL_SIRLP ||| CTL_LBE ||| CTL_RXE ||| CTL_DTR)
  let s4 := HWREG_CLEAR_BITS s3 nr .cr
    (CTL_RTS ||| CTL_OUT1 ||| CTL_OUT2 ||| CTL_RTSEn ||| CTL_CTSEn)
  let s5 := HWREG_CLEAR_BITS s4 nr .imsc
    (INT_RIMIM ||| INT_CTSMIM ||| INT_DCDMIM ||| INT_DSRMIM ||| INT_RXIM ||| INT_TXIM)
  let s6 := HWREG_CLEAR_BITS s5 nr .imsc
    (INT_RTIM ||| INT_FEIM ||| INT_PEIM ||| INT_BEIM ||| INT_OEIM)
  HWREG_SET_BITS s6 nr .cr CTL_UARTEN

/-- The private helper of uart.c that sends one character: it polls the
Flag Register until the TXFF bit clears, then stores the character into
the low byte of the Data Register through a char cast (only that byte of
the word changes; the logged value is the byte).  With the Flag Register
constant during the call, a set TXFF bit means the poll never exits,
rendered as none. -/
def __printCh (nr ch : Nat) (s : UartState) : Option UartState :=
  if HWREG_READ_BITS s nr .fr FR_TXFF ≠ 0 then none
  else some ⟨fun n q => if n = nr ∧ q = UReg.dr
                        then s.regs nr UReg.dr / 2 ^ 8 * 2 ^ 8 + ch % 2 ^ 8
                        else s.regs n q,
             s.log ++ [(nr, UReg.dr, ch % 2 ^ 8)]⟩

/-- uart_printChar from uart.c: silently returns on an invalid channel,
otherwise defers to the helper. -/
def uart_printChar (nr ch : Nat) (s : UartState) : Option UartState :=
  if BSP_NR_UARTS ≤ nr then some s else __printCh nr ch s

/-- The loop of uart_print: send characters until the zero terminator.
Strings are byte lists; the terminator is the end of the list or an
embedded zero byte. -/
def printLoop (nr : Nat) : List Nat → UartState → Option UartState
  | [], s => some s
  | c :: cs, s =>
    if c = 0 then some s else
    match __printCh nr c s with
    | none => none
    | some s1 => printLoop nr cs s1

/-- The placeholder uart_print substitutes for a NULL string. -/
def null_str : List Nat := [60, 78, 85, 76, 76, 62, 10]

/-- uart_print from uart.c: silently returns on an invalid channel;
a NULL string pointer (none) is replaced by the placeholder; then each
character is sent in order. -/
def uart_print (nr : Nat) (str : Option (List Nat)) (s : UartState) : Option UartState :=
  if BSP_NR_UARTS ≤ nr then some s else printLoop nr (str.getD null_str) s

/-- uart_enableUart from uart.c. -/
def uart_enableUart (nr : Nat) (s : UartState) : UartState :=
  if BSP_NR_UARTS ≤ nr then s else HWREG_SET_BITS s nr .cr CTL_UARTEN

/-- uart_disableUart from uart.c. -/
def uart_disableUart (nr : Nat) (s : UartState) : UartState :=
  if BSP_NR_UARTS ≤ nr then s else HWREG_CLEAR_BITS s nr .cr CTL_UARTEN

/-- The private helper of uart.c that sets or clears Control Register
bits: it remembers the UARTEN bit, disables the UART, applies the change,
and re-enables the UART only if it was enabled before. -/
def __setCrBit (nr : Nat) (b : Bool) (bitmask : Nat) (s : UartState) : UartState :=
  if BSP_NR_UARTS ≤ nr then s else
  let enabled := HWREG_READ_BITS s nr .cr CTL_UARTEN
  let s1 := HWREG_CLEAR_BITS s nr .cr CTL_UARTEN
  let s2 := if b then HWREG_SET_BITS s1 nr .cr bitmask
            else HWREG_CLEAR_BITS s1 nr .cr bitmask
  if enabled ≠ 0 then HWREG_SET_BITS s2 nr .cr CTL_UARTEN else s2

/-- uart_enableTx from uart.c. -/
def uart_enableTx (nr : Nat) (s : UartState) : UartState := __setCrBit nr true CTL_TXE s

/-- uart_disableTx from uart.c. -/
def uart_disableTx (nr : Nat) (s : UartState) : UartState := __setCrBit nr false CTL_TXE s

/-- uart_enableRx from uart.c. -/
def uart_enableRx (nr : Nat) (s : UartState) : UartState := __setCrBit nr true CTL_RXE s

/-- uart_disableRx from uart.c. -/
def uart_disableRx (nr : Nat) (s : UartState) : UartState := __setCrBit nr false CTL_RXE s

/-- uart_enableRxInterrupt from uart.c. -/
def uart_enableRxInterrupt (nr : Nat) (s : UartState) : UartState :=
  if BSP_NR_UARTS ≤ nr then s else HWREG_SET_BITS s nr .imsc INT_RXIM

/-- uart_disableRxInterrupt from uart.c. -/
def uart_disableRxInterrupt (nr : Nat) (s : UartState) : UartState :=
  if BSP_NR_UARTS ≤ nr then s else HWREG_CLEAR_BITS s nr .imsc INT_RXIM

/-- uart_clearRxInterrupt from uart.c: a direct store of the RX mask into
the write-only Interrupt Clear Register. -/
def uart_clearRxInterrupt (nr : Nat) (s : UartState) : UartState :=
  if BSP_NR_UARTS ≤ nr then s else writeReg s nr .icr INT_RXIM

/-- uart_readChar from uart.c: an invalid channel returns the zero byte
immediately; otherwise poll the Flag Register until the RXFE bit clears
(none when it never does) and return the low byte of the Data Register. -/
def uart_readChar (nr : Nat) (s : UartState) : Option (Nat × UartState) :=
  if BSP_NR_UARTS ≤ nr then some (0, s)
  else if HWREG_READ_BITS s nr .fr FR_RXFE ≠ 0 then none
  else some (s.regs nr .dr % 2 ^ 8, s)

end Uart

namespace Startup

/-- Concrete build without FORCE_SVC and an entry state exercising the
unwind path: empty Offset Table and Zero Region, caller stack pointer
0x5000, caller return address 0x8000, image loaded at 0x100, return
address after BL main at 0x134. -/
def cfgC1 : Config := ⟨false, 0x100, 0x10, 0x10, 0x20, 0x20, 0x2000, 0x134⟩

/-- Entry state for the cfgC1 run: supervisor mode (0x13), all data
memory zero. -/
def stC1 : MachState :=
  ⟨0, 0, 0, 0, fun _ => 0x5000, fun _ => 0x8000, 0x13, fun _ => 0, 0, 0, 0, []⟩

/-- Concrete FORCE_SVC build with empty Offset Table and Zero Region. -/
def cfgC4 : Config := ⟨true, 0, 0x100, 0x100, 0x200, 0x200, 0x1000, 0x40⟩

/-- Entry state for the cfgC4 run: supervisor mode, all condition flags
clear (status word 0x13). -/
def stC4 : MachState :=
  ⟨0, 0, 0, 0, fun _ => 0x9000, fun _ => 0x8000, 0x13, fun _ => 0, 0, 0, 0, []⟩

/-- Pass state with the identity as memory, for concrete walks. -/
def stW2 : PassState := ⟨0, fun a => a, []⟩

/-- Pass state with constant memory 7, for concrete zero fills. -/
def stW3 : PassState := ⟨0, fun _ => 7, []⟩

/-- Pass state with all-zero memory. -/
def stW6 : PassState := ⟨0, fun _ => 0, []⟩

end Startup

namespace Uart

/-- Device state with every register zero and an empty write log. -/
def uartS0 : UartState := ⟨fun _ _ => 0, []⟩

end Uart

namespace Startup

theorem addw_mod (a b : Nat) : addw a b % 2 ^ 32 = addw a b := by
  simp [addw]

theorem gotLoop_cpsr (r7 r5 : Nat) : ∀ (r6 : Nat) (st : PassState),
    (gotLoop r7 r5 r6 st).cpsr % 2 ^ 28 = st.cpsr % 2 ^ 28 := by
  intro r6
  induction r6 using Nat.strong_induction_on with
  | _ r6 ih =>
    intro st
    rw [gotLoop.eq_def]
    simp only []
    split
    · rw [ih]
      · simp [flagsSub, Nat.add_mul_mod_self_right]
      · rename_i h
        simp only [toSigned, subw] at h ⊢
        split at h <;> omega
    · simp [flagsSub, Nat.add_mul_mod_self_right]

theorem gotLoop_mem : ∀ (k r7 r5 : Nat) (st : PassState), 1 ≤ k → 4 * k < 2 ^ 31 →
    r5 + 4 * k ≤ 2 ^ 32 →
    (gotLoop r7 r5 (4 * k) st).mem =
      fun a => if r5 ≤ a ∧ a < r5 + 4 * k ∧ (a - r5) % 4 = 0
               then addw (st.mem a) r7 else st.mem a := by
  intro k
  induction k with
  | zero => intro r7 r5 st h1; omega
  | succ k ih =>
    intro r7 r5 st h1 h2 h3
    rw [gotLoop.eq_def]
    simp only []
    have e1 : subw (4 * (k + 1)) 4 = 4 * k := by simp [subw]; omega
    rcases Nat.eq_zero_or_pos k with hk | hk
    · subst hk
      have hnc : ¬ (4 < toSigned (4 * (0 + 1))) := by simp [toSigned]
      rw [if_neg hnc, e1]
      have e2 : addw r5 0 = r5 := by simp [addw]; omega
      rw [e2]
      funext a
      simp only [writeWord, addw_mod]
      split_ifs
      all_goals try omega
      all_goals rw [show a = r5 by omega]
    · have hcond : 4 < toSigned (4 * (k + 1)) := by
        simp only [toSigned]
        split <;> omega
      rw [if_pos hcond, e1]
      have e2 : addw r5 (4 * k) = r5 + 4 * k := by simp [addw]; omega
      rw [e2, ih r7 r5 _ hk (by omega) (by omega)]
      funext a
      dsimp only
      simp only [writeWord, addw_mod]
      split_ifs
      all_goals try omega
      all_goals rw [show a = r5 + 4 * k by omega]

theorem bssLoop_cpsr (r5 : Nat) : ∀ (r6 : Nat) (st : PassState),
    (bssLoop r5 r6 st).cpsr % 2 ^ 28 = st.cpsr % 2 ^ 28 := by
  intro r6
  induction r6 using Nat.strong_induction_on with
  | _ r6 ih =>
    intro st
    rw [bssLoop.eq_def]
    simp only []
    split
    · rw [ih]
      · simp [flagsSub, Nat.add_mul_mod_self_right]
      · rename_i h
        simp only [toSigned, subw] at h ⊢
        split at h <;> omega
    · simp [flagsSub, Nat.add_mul_mod_self_right]

theorem bssLoop_spec : ∀ (k r5 : Nat) (st : PassState), 1 ≤ k → 4 * k < 2 ^ 31 →
    r5 + 4 * k ≤ 2 ^ 32 →
    (bssLoop r5 (4 * k) st).mem =
      (fun a => if r5 ≤ a ∧ a < r5 + 4 * k ∧ (a - r5) % 4 = 0 then 0 else st.mem a) ∧
    (bssLoop r5 (4 * k) st).writes =
      st.writes ++ (List.range k).reverse.map fun i => (r5 + 4 * i, 0) := by
  intro k
  induction k with
  | zero => intro r5 st h1; omega
  | succ k ih =>
    intro r5 st h1 h2 h3
    rw [bssLoop.eq_def]
    simp only []
    have e1 : subw (4 * (k + 1)) 4 = 4 * k := by simp [subw]; omega
    rcases Nat.eq_zero_or_pos k with hk | hk
    · subst hk
      have hnc : ¬ (4 < toSigned (4 * (0 + 1))) := by simp [toSigned]
      rw [if_neg hnc, e1]
      have e2 : addw r5 0 = r5 := by simp [addw]; omega
      rw [e2]
      constructor
      · funext a
        simp only [writeWord]
        split_ifs <;> omega
      · simp [List.range_succ]
    · have hcond : 4 < toSigned (4 * (k + 1)) := by
        simp only [toSigned]
        split <;> omega
      rw [if_pos hcond, e1]
      have e2 : addw r5 (4 * k) = r5 + 4 * k := by simp [addw]; omega
      rw [e2]
      obtain ⟨ihm, ihw⟩ := ih r5 _ hk (by omega) (by omega)
      constructor
      · rw [ihm]
        funext a
        dsimp only
        simp only [writeWord]
        split_ifs <;> omega
      · rw [ihw]
        simp [List.range_succ]

theorem gotPass_cpsr (r7 r5 r6 : Nat) (st : PassState) :
    (gotPass r7 r5 r6 st).cpsr % 2 ^ 28 = st.cpsr % 2 ^ 28 := by
  rw [gotPass]
  split
  · simp [flagsSub, Nat.add_mul_mod_self_right]
  · rw [gotLoop_cpsr]
    simp [flagsSub, Nat.add_mul_mod_self_right]

theorem bssPass_cpsr (r5 r6 : Nat) (st : PassState) :
    (bssPass r5 r6 st).cpsr % 2 ^ 28 = st.cpsr % 2 ^ 28 := by
  rw [bssPass]
  split
  · simp [flagsSub, Nat.add_mul_mod_self_right]
  · rw [bssLoop_cpsr]
    simp [flagsSub, Nat.add_mul_mod_self_right]

theorem flagsMovZero_mod (c : Nat) : flagsMovZero c % 2 ^ 28 = c % 2 ^ 28 := by
  simp only [flagsMovZero]
  omega

theorem svcSwitch_bits (c : Nat) :
    svcSwitch c / 2 ^ 8 = c / 2 ^ 8 ∧ svcSwitch c % 2 ^ 5 = 19 ∧
    svcSwitch c / 2 ^ 5 % 2 = c / 2 ^ 5 % 2 ∧ svcSwitch c / 2 ^ 6 % 2 = 1 ∧
    svcSwitch c / 2 ^ 7 % 2 = 1 := by
  simp only [svcSwitch]
  omega

theorem restore_chain (B a1 a2 a3 a4 c : Nat) (m : Mem) :
    restoreCpsr (bssPass a3 a4
        ⟨flagsMovZero (svcSwitch (gotPass B a1 a2 ⟨c, m, []⟩).cpsr),
         (gotPass B a1 a2 ⟨c, m, []⟩).mem, []⟩).cpsr
      (gotPass B a1 a2 ⟨c, m, []⟩).cpsr % 2 ^ 28 = c % 2 ^ 28 := by
  have hg : (gotPass B a1 a2 ⟨c, m, []⟩).cpsr % 2 ^ 28 = c % 2 ^ 28 := by
    simpa using gotPass_cpsr B a1 a2 ⟨c, m, []⟩
  have hb := bssPass_cpsr a3 a4
    ⟨flagsMovZero (svcSwitch (gotPass B a1 a2 ⟨c, m, []⟩).cpsr),
     (gotPass B a1 a2 ⟨c, m, []⟩).mem, []⟩
  simp only [] at hb
  rw [flagsMovZero_mod] at hb
  generalize hG : (gotPass B a1 a2 ⟨c, m, []⟩).cpsr = g at *
  generalize hB : (bssPass a3 a4 _).cpsr = b at *
  simp only [restoreCpsr, svcSwitch] at *
  omega

theorem runStart_cpsr_svc (cfg : Config) (s : MachState) (hF : cfg.forceSvc = true) :
    (runStart cfg s).cpsr % 2 ^ 28 = s.cpsr % 2 ^ 28 := by
  simp only [runStart, hF, if_true]
  exact restore_chain _ _ _ _ _ _ _

theorem writes_ne_call (l : List (Nat × Nat)) :
    ∀ e ∈ l.map (fun w => Event.write w.1 w.2), e ≠ Event.callMain := by
  intro e he
  simp only [List.mem_map] at he
  obtain ⟨w, hw, rfl⟩ := he
  simp

theorem trace_shape (t L4 gw bw : List Event)
    (h4 : ∀ e ∈ L4, e ≠ Event.callMain) (hg : ∀ e ∈ gw, e ≠ Event.callMain)
    (hb : ∀ e ∈ bw, e ≠ Event.callMain) :
    ∃ pre, (((t ++ L4) ++ gw) ++ bw) ++ [Event.callMain] =
        t ++ pre ++ [Event.callMain] ∧ ∀ e ∈ pre, e ≠ Event.callMain := by
  refine ⟨L4 ++ gw ++ bw, by simp, ?_⟩
  intro e he
  simp only [List.mem_append] at he
  rcases he with (h | h) | h
  · exact h4 e h
  · exact hg e h
  · exact hb e h

end Startup

namespace Startup

/-- Claim C1: with the mode switch disabled, the stack pointer and the
return address observed by the caller after the unwind of _start are
bit-identical to their entry values.  The code violates the
return-address half: without FORCE_SVC nothing saves the link register,
BL main overwrites it with the address of the following instruction, and
the epilogue restores only sp and r4 to r7 before BX LR.  This theorem
evaluates the embedded code at the failing input cfgC1 / stC1 (entry
lr 0x8000): the stack pointer is restored exactly, but the link register
the caller observes equals the thunk-internal return address 0x134, not
the entry value. -/
theorem entry_thunk_lr_clobbered :
    (runStart cfgC1 stC1).spBank 19 = stC1.spBank 19 ∧
    (runStart cfgC1 stC1).lrBank 19 = cfgC1.retAddr ∧
    (runStart cfgC1 stC1).lrBank 19 ≠ stC1.lrBank 19 := by
  decide

/-- Counterexample to C2 as stated.  The claim quantifies over every
offset and table, but the emptiness guard compares the relocated bounds
as signed 32-bit values: with B = 4 over the two-slot table at link
bounds 0x7ffffff8 and 0x80000000, the relocated table straddles 2^31,
the signed view of the end bound is negative, SUBS; BLE falls through,
and the walk is skipped entirely — slot 0 keeps its old value 0 instead
of the claimed 0 + B, and no write is performed although N = 2. -/
theorem relocation_walker_cex :
    (gotPass 4 (addw 0x7ffffff8 4) (addw (0x7ffffff8 + 4 * 2) 4) stW6).mem
        (0x7ffffff8 + 4 + 4 * 0) ≠
      (stW6.mem (0x7ffffff8 + 4 + 4 * 0) + 4) % 2 ^ 32 ∧
    (gotPass 4 (addw 0x7ffffff8 4) (addw (0x7ffffff8 + 4 * 2) 4) stW6).writes =
      stW6.writes := by
  constructor
  · decide
  · decide

/-- Claim C2 amended: running the Relocation Walker with Load Base Offset B over
an Offset Table of N pointer-sized slots (link bounds s0 and s0 + 4N,
relocated by B) replaces the content v of every slot i with v + B
(32-bit sum), changes no memory cell outside the relocated table, and
performs no write when N = 0.  The bound keeps the relocated table below
2^31, where the signed loop guard agrees with the table arithmetic. -/
theorem relocation_walker_correct (B s0 N : Nat) (st : PassState)
    (hfit : s0 + B + 4 * N < 2 ^ 31) :
    ((∀ i, i < N →
      (gotPass B (addw s0 B) (addw (s0 + 4 * N) B) st).mem (s0 + B + 4 * i) =
        (st.mem (s0 + B + 4 * i) + B) % 2 ^ 32) ∧
    (∀ a, a < s0 + B ∨ s0 + B + 4 * N ≤ a →
      (gotPass B (addw s0 B) (addw (s0 + 4 * N) B) st).mem a = st.mem a) ∧
    (N = 0 → (gotPass B (addw s0 B) (addw (s0 + 4 * N) B) st).writes = st.writes)) := by
  have ha1 : addw s0 B = s0 + B := by simp [addw]; omega
  have ha2 : addw (s0 + 4 * N) B = s0 + 4 * N + B := by simp [addw]; omega
  rw [gotPass, ha1, ha2]
  rcases Nat.eq_zero_or_pos N with hN | hN
  · subst hN
    have hg : toSigned (s0 + 4 * 0 + B) ≤ toSigned (s0 + B) := by
      simp only [toSigned]
      split <;> split <;> omega
    rw [if_pos hg]
    refine ⟨by omega, fun a ha => rfl, fun h => rfl⟩
  · have hg : ¬ (toSigned (s0 + 4 * N + B) ≤ toSigned (s0 + B)) := by
      simp only [toSigned]
      split <;> split <;> omega
    rw [if_neg hg]
    have hsub : subw (s0 + 4 * N + B) (s0 + B) = 4 * N := by simp [subw]; omega
    rw [hsub]
    rw [gotLoop_mem N B (s0 + B) _ hN (by omega) (by omega)]
    refine ⟨fun i hi => ?_, fun a ha => ?_, fun h => by omega⟩
    · dsimp only
      rw [if_pos (by omega)]
      simp [addw]
    · dsimp only
      rw [if_neg (by omega)]

/-- Witness for C2 at B = 256, s0 = 100, N = 2 over the identity memory. -/
theorem relocation_walker_correct_witness :
    100 + 256 + 4 * 2 < 2 ^ 31 ∧
    ((∀ i, i < 2 →
      (gotPass 256 (addw 100 256) (addw (100 + 4 * 2) 256) stW2).mem (100 + 256 + 4 * i) =
        (stW2.mem (100 + 256 + 4 * i) + 256) % 2 ^ 32) ∧
    (∀ a, a < 100 + 256 ∨ 100 + 256 + 4 * 2 ≤ a →
      (gotPass 256 (addw 100 256) (addw (100 + 4 * 2) 256) stW2).mem a = stW2.mem a) ∧
    (2 = 0 → (gotPass 256 (addw 100 256) (addw (100 + 4 * 2) 256) stW2).writes = stW2.writes)) :=
  ⟨by norm_num, relocation_walker_correct 256 100 2 stW2 (by norm_num)⟩

/-- Counterexample to C3 as stated.  With B = 4 over the byte range of
length L = 8 at link start 0x7ffffff8, the relocated range straddles
2^31; the signed view of the relocated end bound is negative, SUBS; BLE
falls through, and the fill is skipped entirely — the word at the start
of the range keeps its old value 7 instead of the claimed zero, and zero
stores are performed instead of the claimed L / 4 = 2. -/
theorem zero_fill_cex :
    (bssPass (addw 0x7ffffff8 4) (addw (0x7ffffff8 + 8) 4) stW3).mem
      (0x7ffffff8 + 4) ≠ 0 ∧
    (bssPass (addw 0x7ffffff8 4) (addw (0x7ffffff8 + 8) 4) stW3).writes.length ≠
      stW3.writes.length + 8 / 4 := by
  constructor
  · decide
  · decide

/-- Claim C3 amended: running the Zero-Fill Initializer over a byte range of
length L (multiple of the word size, relocated by B) zeroes every word
of the range, performs exactly L / 4 stores, all of value zero (the
write log grows by exactly the descending list of the L / 4 slot
addresses paired with zero), leaves memory outside the range untouched,
and performs no write for L = 0.  The bound keeps the relocated range
below 2^31, where the signed loop guard agrees with the range
arithmetic. -/
theorem zero_fill_correct (B s0 L : Nat) (st : PassState)
    (hmul : L % 4 = 0) (hfit : s0 + B + L < 2 ^ 31) :
    ((∀ a, s0 + B ≤ a → a < s0 + B + L → (a - (s0 + B)) % 4 = 0 →
      (bssPass (addw s0 B) (addw (s0 + L) B) st).mem a = 0) ∧
    (∀ a, a < s0 + B ∨ s0 + B + L ≤ a →
      (bssPass (addw s0 B) (addw (s0 + L) B) st).mem a = st.mem a) ∧
    (bssPass (addw s0 B) (addw (s0 + L) B) st).writes =
      st.writes ++ (List.range (L / 4)).reverse.map (fun i => (s0 + B + 4 * i, 0)) ∧
    (bssPass (addw s0 B) (addw (s0 + L) B) st).writes.length =
      st.writes.length + L / 4 ∧
    (L = 0 → (bssPass (addw s0 B) (addw (s0 + L) B) st).writes = st.writes)) := by
  have ha1 : addw s0 B = s0 + B := by simp [addw]; omega
  have ha2 : addw (s0 + L) B = s0 + L + B := by simp [addw]; omega
  rw [bssPass, ha1, ha2]
  rcases Nat.eq_zero_or_pos L with hL | hL
  · subst hL
    have hg : toSigned (s0 + 0 + B) ≤ toSigned (s0 + B) := by
      simp only [toSigned]
      split <;> split <;> omega
    rw [if_pos hg]
    exact ⟨by omega, fun a ha => rfl, by simp, by simp, fun h => rfl⟩
  · have hg : ¬ (toSigned (s0 + L + B) ≤ toSigned (s0 + B)) := by
      simp only [toSigned]
      split <;> split <;> omega
    rw [if_neg hg]
    have hsub : subw (s0 + L + B) (s0 + B) = 4 * (L / 4) := by simp [subw]; omega
    rw [hsub]
    obtain ⟨hm, hw⟩ := bssLoop_spec (L / 4) (s0 + B)
      ⟨flagsSub st.cpsr (s0 + L + B) (s0 + B), st.mem, st.writes⟩
      (by omega) (by omega) (by omega)
    refine ⟨fun a h1 h2 h3 => ?_, fun a ha => ?_, ?_, ?_, fun h => by omega⟩
    · rw [hm]
      dsimp only
      rw [if_pos (by omega)]
    · rw [hm]
      dsimp only
      rw [if_neg (by omega)]
    · rw [hw]
    · rw [hw]
      simp

/-- Witness for C3 at B = 16, s0 = 100, L = 4: the one-word range is
zeroed with exactly one store. -/
theorem zero_fill_correct_witness :
    4 % 4 = 0 ∧ 100 + 16 + 4 < 2 ^ 31 ∧
    ((∀ a, 100 + 16 ≤ a → a < 100 + 16 + 4 → (a - (100 + 16)) % 4 = 0 →
      (bssPass (addw 100 16) (addw (100 + 4) 16) stW3).mem a = 0) ∧
    (∀ a, a < 100 + 16 ∨ 100 + 16 + 4 ≤ a →
      (bssPass (addw 100 16) (addw (100 + 4) 16) stW3).mem a = stW3.mem a) ∧
    (bssPass (addw 100 16) (addw (100 + 4) 16) stW3).writes =
      stW3.writes ++ (List.range (4 / 4)).reverse.map (fun i => (100 + 16 + 4 * i, 0)) ∧
    (bssPass (addw 100 16) (addw (100 + 4) 16) stW3).writes.length =
      stW3.writes.length + 4 / 4 ∧
    (4 = 0 → (bssPass (addw 100 16) (addw (100 + 4) 16) stW3).writes = stW3.writes)) :=
  ⟨by norm_num, by norm_num, zero_fill_correct 16 100 4 stW3 (by norm_num) (by norm_num)⟩

/-- Counterexample to C4 as stated.  First conjunct: the FORCE_SVC
switch does not leave every non-mode status bit untouched: at entry
status word 0x1f (system mode, interrupts enabled) it flips bit 6, the
FIQ disable flag, which is not a mode-selector bit.  Second conjunct:
after the full FORCE_SVC run from entry status word 0x13 the condition
flags (bits 28 to 31) differ from their entry values, although they are
not mode bits: the own SUBS instructions of the thunk leave Z and C set and
the unwind copies back only the low byte. -/
theorem mode_switch_claim_cex :
    svcSwitch 0x1f / 2 ^ 6 % 2 ≠ 0x1f / 2 ^ 6 % 2 ∧
    (runStart cfgC4 stC4).cpsr / 2 ^ 28 ≠ stC4.cpsr / 2 ^ 28 := by
  constructor
  · decide
  · decide

/-- Claim C4 amended: the FORCE_SVC switch overwrites the five
mode-selector bits (to supervisor, 0b10011) and in addition forces the
interrupt-disable flags, bits 6 and 7, to one; it leaves bit 5 and all
bits from 8 upward unchanged.  After the Entry Thunk returns, bits 0 to
27 of the status word are identical to their values before entry; the
condition flags in bits 28 to 31 are clobbered and not restored. -/
theorem mode_switch_amended :
    (∀ c, svcSwitch c / 2 ^ 8 = c / 2 ^ 8 ∧ svcSwitch c % 2 ^ 5 = 19 ∧
      svcSwitch c / 2 ^ 5 % 2 = c / 2 ^ 5 % 2 ∧ svcSwitch c / 2 ^ 6 % 2 = 1 ∧
      svcSwitch c / 2 ^ 7 % 2 = 1) ∧
    (∀ cfg s, cfg.forceSvc = true →
      (runStart cfg s).cpsr % 2 ^ 28 = s.cpsr % 2 ^ 28) :=
  ⟨svcSwitch_bits, runStart_cpsr_svc⟩

/-- Witness for the amended C4 on the concrete FORCE_SVC run. -/
theorem mode_switch_amended_witness :
    cfgC4.forceSvc = true ∧
    (runStart cfgC4 stC4).cpsr % 2 ^ 28 = stC4.cpsr % 2 ^ 28 :=
  ⟨rfl, mode_switch_amended.2 cfgC4 stC4 rfl⟩

/-- Claim C5: in every invocation of the Entry Thunk, for either build,
the single call of the generic entry is the last event of the trace:
every store the run performs, in particular the whole write list of the
Relocation Walker pass and the whole write list of the Zero-Fill pass,
is logged strictly before Event.callMain, and callMain occurs exactly
once. -/
theorem passes_before_main (cfg : Config) (s : MachState) :
    ∃ pre, (runStart cfg s).trace = s.trace ++ pre ++ [Event.callMain] ∧
      ∀ e ∈ pre, e ≠ Event.callMain := by
  simp only [runStart]
  exact trace_shape _ _ _ _
    (by intro e he
        simp only [List.mem_cons, List.not_mem_nil, or_false] at he
        rcases he with h | h | h | h <;> subst h <;> simp)
    (writes_ne_call _) (writes_ne_call _)

/-- Counterexample to C6 as stated.  The emptiness guard BLE compares
the relocated bounds as signed 32-bit values.  With start = 0xfffffffc,
end = 0 and offset 0 we have start at least end, yet signed start is -4,
the guard falls through, and each pass performs one store: the claim
that start at least end implies no write is false on the code. -/
theorem emptiness_guard_cex :
    (4294967292 : Nat) ≥ 0 ∧
    (gotPass 0 (addw 4294967292 0) (addw 0 0) stW6).writes ≠ [] ∧
    (bssPass (addw 4294967292 0) (addw 0 0) stW6).writes ≠ [] := by
  have ha1 : addw 4294967292 0 = 4294967292 := by simp [addw]
  have ha2 : addw (0 : Nat) 0 = 0 := by simp [addw]
  have hg : ¬ (toSigned 0 ≤ toSigned 4294967292) := by
    simp only [toSigned]
    norm_num
  have hsub : subw 0 4294967292 = 4 := by simp [subw]
  have hnc : ¬ (4 < toSigned 4) := by simp [toSigned]
  refine ⟨by omega, ?_, ?_⟩
  · rw [gotPass, ha1, ha2, if_neg hg, hsub, gotLoop.eq_def, if_neg hnc]
    simp [stW6]
  · rw [bssPass, ha1, ha2, if_neg hg, hsub, bssLoop.eq_def, if_neg hnc]
    simp [stW6]

/-- Claim C6 amended: if start at least end and the signed 32-bit
comparison the guard uses agrees with the unsigned order — in particular
whenever the relocated start bound lies below 2^31 — then neither the
Relocation Walker nor the Zero-Fill pass performs any memory write: the
guard is evaluated before either loop body, so the write log and the
memory are returned unchanged. -/
theorem emptiness_guard_amended (B s e : Nat) (stG stB : PassState)
    (h : e ≤ s) (hs : s + B < 2 ^ 31) :
    ((gotPass B (addw s B) (addw e B) stG).writes = stG.writes ∧
     (gotPass B (addw s B) (addw e B) stG).mem = stG.mem) ∧
    ((bssPass (addw s B) (addw e B) stB).writes = stB.writes ∧
     (bssPass (addw s B) (addw e B) stB).mem = stB.mem) := by
  have ha1 : addw s B = s + B := by simp [addw]; omega
  have ha2 : addw e B = e + B := by simp [addw]; omega
  have hg : toSigned (e + B) ≤ toSigned (s + B) := by
    simp only [toSigned]
    split <;> first | omega | (split <;> omega)
  rw [gotPass, bssPass, ha1, ha2, if_pos hg, if_pos hg]
  exact ⟨⟨rfl, rfl⟩, ⟨rfl, rfl⟩⟩

/-- Witness for the amended C6 at start = 20, end = 10, offset 100. -/
theorem emptiness_guard_amended_witness :
    (10 : Nat) ≤ 20 ∧ 20 + 100 < 2 ^ 31 ∧
    (((gotPass 100 (addw 20 100) (addw 10 100) stW6).writes = stW6.writes ∧
     (gotPass 100 (addw 20 100) (addw 10 100) stW6).mem = stW6.mem) ∧
    ((bssPass (addw 20 100) (addw 10 100) stW6).writes = stW6.writes ∧
     (bssPass (addw 20 100) (addw 10 100) stW6).mem = stW6.mem)) :=
  ⟨by norm_num, by norm_num,
   emptiness_guard_amended 100 20 10 stW6 stW6 (by norm_num) (by norm_num)⟩

end Startup

namespace Uart

theorem lor_parity (x m : Nat) (hm : m % 2 = 0) : (x ||| m) % 2 = x % 2 := by
  have h := @Nat.or_mod_two_eq_one x m
  by_cases hx : x % 2 = 1
  · have h1 : (x ||| m) % 2 = 1 := h.mpr (Or.inl hx)
    omega
  · have h1 : ¬ ((x ||| m) % 2 = 1) := fun hc => (h.mp hc).elim hx (by omega)
    omega

theorem lor_one_parity (x : Nat) : (x ||| 1) % 2 = 1 :=
  (@Nat.or_mod_two_eq_one x 1).mpr (Or.inr (by norm_num))

theorem land_parity (x m : Nat) (hm : m % 2 = 0) : (x &&& m) % 2 = 0 := by
  have h := @Nat.and_mod_two_eq_one x m
  have h1 : ¬ ((x &&& m) % 2 = 1) := fun hc => by
    have := (h.mp hc).2
    omega
  omega

theorem clear_parity (x m : Nat) (hm : m % 2 = 0) : (x - (x &&& m)) % 2 = x % 2 := by
  have h1 : x &&& m ≤ x := Nat.and_le_left
  have h2 := land_parity x m hm
  omega

theorem setCrBit_uarten (nr : Nat) (b : Bool) (mask : Nat) (s : UartState)
    (hm : mask % 2 = 0) :
    (__setCrBit nr b mask s).regs nr .cr % 2 = s.regs nr .cr % 2 := by
  rw [__setCrBit]
  split
  · rfl
  · rcases b with _ | _ <;>
      simp only [HWREG_SET_BITS, HWREG_CLEAR_BITS, HWREG_READ_BITS, writeReg, CTL_UARTEN,
        Bool.false_eq_true, if_true, if_false, and_self, reduceIte] <;>
      split <;>
      rename_i hen <;>
      simp only [and_self, reduceIte, Nat.and_one_is_mod] at hen ⊢
    all_goals first
      | (rw [lor_one_parity]; omega)
      | (rw [clear_parity _ _ hm]; omega)
      | (rw [lor_parity _ _ hm]; omega)

theorem printCh_run (nr ch : Nat) (s : UartState)
    (h : HWREG_READ_BITS s nr .fr FR_TXFF = 0) :
    __printCh nr ch s = some
      ⟨fun n q => if n = nr ∧ q = UReg.dr
                  then s.regs nr UReg.dr / 2 ^ 8 * 2 ^ 8 + ch % 2 ^ 8
                  else s.regs n q,
       s.log ++ [(nr, UReg.dr, ch % 2 ^ 8)]⟩ := by
  rw [__printCh, if_neg (by simp [h])]

theorem printLoop_cons (nr c : Nat) (cs : List Nat) (s : UartState) (hc : ¬ c = 0)
    (hfr : HWREG_READ_BITS s nr .fr FR_TXFF = 0) :
    printLoop nr (c :: cs) s = printLoop nr cs
      ⟨fun n q => if n = nr ∧ q = UReg.dr
                  then s.regs nr UReg.dr / 2 ^ 8 * 2 ^ 8 + c % 2 ^ 8
                  else s.regs n q,
       s.log ++ [(nr, UReg.dr, c % 2 ^ 8)]⟩ := by
  simp only [printLoop]
  rw [if_neg hc, printCh_run _ _ _ hfr]

/-- Claim C7: every driver operation given a channel index at or above
the configured channel count returns with the device state — register
file and write log — unchanged, performing no register write, and
uart_readChar returns the zero byte immediately. -/
theorem invalid_channel_noop (nr : Nat) (s : UartState) (h : BSP_NR_UARTS ≤ nr) :
    uart_init nr s = s ∧
    (∀ ch, uart_printChar nr ch s = some s) ∧
    (∀ str, uart_print nr str s = some s) ∧
    uart_enableUart nr s = s ∧
    uart_disableUart nr s = s ∧
    uart_enableTx nr s = s ∧
    uart_disableTx nr s = s ∧
    uart_enableRx nr s = s ∧
    uart_disableRx nr s = s ∧
    uart_enableRxInterrupt nr s = s ∧
    uart_disableRxInterrupt nr s = s ∧
    uart_clearRxInterrupt nr s = s ∧
    uart_readChar nr s = some (0, s) := by
  refine ⟨?_, fun ch => ?_, fun str => ?_, ?_, ?_, ?_, ?_, ?_, ?_, ?_, ?_, ?_, ?_⟩ <;>
    simp [uart_init, uart_printChar, uart_print, uart_enableUart, uart_disableUart,
      uart_enableTx, uart_disableTx, uart_enableRx, uart_disableRx, __setCrBit,
      uart_enableRxInterrupt, uart_disableRxInterrupt, uart_clearRxInterrupt,
      uart_readChar, if_pos h]

/-- Witness for C7 at channel 3 (one past the last valid channel). -/
theorem invalid_channel_noop_witness :
    BSP_NR_UARTS ≤ 3 ∧
    (uart_init 3 uartS0 = uartS0 ∧
    (∀ ch, uart_printChar 3 ch uartS0 = some uartS0) ∧
    (∀ str, uart_print 3 str uartS0 = some uartS0) ∧
    uart_enableUart 3 uartS0 = uartS0 ∧
    uart_disableUart 3 uartS0 = uartS0 ∧
    uart_enableTx 3 uartS0 = uartS0 ∧
    uart_disableTx 3 uartS0 = uartS0 ∧
    uart_enableRx 3 uartS0 = uartS0 ∧
    uart_disableRx 3 uartS0 = uartS0 ∧
    uart_enableRxInterrupt 3 uartS0 = uartS0 ∧
    uart_disableRxInterrupt 3 uartS0 = uartS0 ∧
    uart_clearRxInterrupt 3 uartS0 = uartS0 ∧
    uart_readChar 3 uartS0 = some (0, uartS0)) := by
  refine ⟨by decide, ?_⟩
  have h := invalid_channel_noop 3 uartS0 (by decide)
  exact ⟨h.1, h.2.1, h.2.2.1, h.2.2.2.1, h.2.2.2.2.1, h.2.2.2.2.2.1, h.2.2.2.2.2.2.1,
    h.2.2.2.2.2.2.2.1, h.2.2.2.2.2.2.2.2.1, h.2.2.2.2.2.2.2.2.2.1,
    h.2.2.2.2.2.2.2.2.2.2.1, h.2.2.2.2.2.2.2.2.2.2.2.1, h.2.2.2.2.2.2.2.2.2.2.2.2⟩

/-- Claim C8: sending the string holding the bytes of O, K and newline
on a valid channel whose transmit-full flag reads zero appends exactly
three entries to the write log — all to the Data Register, with byte
values 79, 75 and 10 in that order — and nothing else. -/
theorem print_ok_writes (nr : Nat) (s : UartState) (hnr : nr < BSP_NR_UARTS)
    (hfr : HWREG_READ_BITS s nr .fr FR_TXFF = 0) :
    ∃ s3, uart_print nr (some [79, 75, 10]) s = some s3 ∧
      s3.log = s.log ++ [(nr, UReg.dr, 79), (nr, UReg.dr, 75), (nr, UReg.dr, 10)] := by
  rw [uart_print, if_neg (by omega)]
  simp only [Option.getD]
  rw [printLoop_cons _ _ _ _ (by norm_num) hfr]
  rw [printLoop_cons _ _ _ _ (by norm_num) (by simpa [HWREG_READ_BITS] using hfr)]
  rw [printLoop_cons _ _ _ _ (by norm_num) (by simpa [HWREG_READ_BITS] using hfr)]
  rw [printLoop]
  refine ⟨_, rfl, ?_⟩
  simp

/-- Witness for C8 on channel 0 of the all-zero device. -/
theorem print_ok_writes_witness :
    0 < BSP_NR_UARTS ∧ HWREG_READ_BITS uartS0 0 .fr FR_TXFF = 0 ∧
    ∃ s3, uart_print 0 (some [79, 75, 10]) uartS0 = some s3 ∧
      s3.log = uartS0.log ++ [(0, UReg.dr, 79), (0, UReg.dr, 75), (0, UReg.dr, 10)] :=
  ⟨by decide, by decide, print_ok_writes 0 uartS0 (by decide) (by decide)⟩

/-- Claim C9: on a valid channel, enabling or disabling the transmit or
receive section leaves the UART enable bit (bit 0 of the Control
Register) exactly as it was: the helper disables the UART during the
modification and re-enables it afterwards precisely when it was enabled
before, so the low bit of the Control Register is preserved for every
initial register value. -/
theorem txrx_preserve_uarten (nr : Nat) (s : UartState) (h : nr < BSP_NR_UARTS) :
    (uart_enableTx nr s).regs nr .cr % 2 = s.regs nr .cr % 2 ∧
    (uart_disableTx nr s).regs nr .cr % 2 = s.regs nr .cr % 2 ∧
    (uart_enableRx nr s).regs nr .cr % 2 = s.regs nr .cr % 2 ∧
    (uart_disableRx nr s).regs nr .cr % 2 = s.regs nr .cr % 2 :=
  ⟨setCrBit_uarten nr true CTL_TXE s (by norm_num [CTL_TXE]),
   setCrBit_uarten nr false CTL_TXE s (by norm_num [CTL_TXE]),
   setCrBit_uarten nr true CTL_RXE s (by norm_num [CTL_RXE]),
   setCrBit_uarten nr false CTL_RXE s (by norm_num [CTL_RXE])⟩

/-- Witness for C9 on channel 0 of the all-zero device. -/
theorem txrx_preserve_uarten_witness :
    0 < BSP_NR_UARTS ∧
    ((uart_enableTx 0 uartS0).regs 0 .cr % 2 = uartS0.regs 0 .cr % 2 ∧
    (uart_disableTx 0 uartS0).regs 0 .cr % 2 = uartS0.regs 0 .cr % 2 ∧
    (uart_enableRx 0 uartS0).regs 0 .cr % 2 = uartS0.regs 0 .cr % 2 ∧
    (uart_disableRx 0 uartS0).regs 0 .cr % 2 = uartS0.regs 0 .cr % 2) :=
  ⟨by decide, txrx_preserve_uarten 0 uartS0 (by decide)⟩

/-- Claim C10: on a valid channel that can transmit, uart_print called
with a NULL string (none) sends exactly the seven bytes of the
placeholder, the characters of the string <NULL> followed by a newline,
in order, instead of dereferencing the NULL pointer. -/
theorem print_null_writes (nr : Nat) (s : UartState) (hnr : nr < BSP_NR_UARTS)
    (hfr : HWREG_READ_BITS s nr .fr FR_TXFF = 0) :
    ∃ s7, uart_print nr none s = some s7 ∧
      s7.log = s.log ++ [(nr, UReg.dr, 60), (nr, UReg.dr, 78), (nr, UReg.dr, 85),
        (nr, UReg.dr, 76), (nr, UReg.dr, 76), (nr, UReg.dr, 62), (nr, UReg.dr, 10)] := by
  rw [uart_print, if_neg (by omega)]
  simp only [Option.getD, null_str]
  rw [printLoop_cons _ _ _ _ (by norm_num) hfr]
  rw [printLoop_cons _ _ _ _ (by norm_num) (by simpa [HWREG_READ_BITS] using hfr)]
  rw [printLoop_cons _ _ _ _ (by norm_num) (by simpa [HWREG_READ_BITS] using hfr)]
  rw [printLoop_cons _ _ _ _ (by norm_num) (by simpa [HWREG_READ_BITS] using hfr)]
  rw [printLoop_cons _ _ _ _ (by norm_num) (by simpa [HWREG_READ_BITS] using hfr)]
  rw [printLoop_cons _ _ _ _ (by norm_num) (by simpa [HWREG_READ_BITS] using hfr)]
  rw [printLoop_cons _ _ _ _ (by norm_num) (by simpa [HWREG_READ_BITS] using hfr)]
  rw [printLoop]
  refine ⟨_, rfl, ?_⟩
  simp

/-- Witness for C10 on channel 1 of the all-zero device. -/
theorem print_null_writes_witness :
    1 < BSP_NR_UARTS ∧ HWREG_READ_BITS uartS0 1 .fr FR_TXFF = 0 ∧
    ∃ s7, uart_print 1 none uartS0 = some s7 ∧
      s7.log = uartS0.log ++ [(1, UReg.dr, 60), (1, UReg.dr, 78), (1, UReg.dr, 85),
        (1, UReg.dr, 76), (1, UReg.dr, 76), (1, UReg.dr, 62), (1, UReg.dr, 10)] :=
  ⟨by decide, by decide, print_null_writes 1 uartS0 (by decide) (by decide)⟩

end Uart
